import Mathlib

/-!
Verification of the sync-orchestration and remote-configuration core of the
repomirror CLI.  The TypeScript functions (loadConfig, saveConfig, remote,
push, pull, sync, syncForever) are shallowly embedded as pure Lean
functions.  Effectful behaviour (git invocations, console reports, file
system writes, process exit) is modelled as explicit event traces plus an
optional exit code; external failure (a git command throwing) is modelled
by a boolean environment oracle.
-/

/-- A named push destination, from the RemoteConfig interface in types.ts:
name, url and branch are all required strings. -/
structure RemoteConfig where
  name : String
  url : String
  branch : String
deriving DecidableEq, Repr

/-- The configuration document, from the RepomirrorConfig interface in
types.ts.  Optional fields are Option so that absence is distinguishable
from any set value, matching TypeScript optional properties. -/
structure RepomirrorConfig where
  source_repo : String
  target_repo : String
  transformation_instructions : String
  config_version : String
  default_remote : Option String := none
  auto_sync : Option Bool := none
  remotes : Option (List RemoteConfig) := none
  target_remote : Option String := none
  times_to_loop : Option Nat := none
deriving DecidableEq, Repr

/-- Options accepted by the push command, from PushOptions in types.ts.
The boolean fields model the truthiness tests the source performs on the
possibly-undefined flags. -/
structure PushOptions where
  remote : Option String := none
  branch : Option String := none
  all : Bool := false
  dryRun : Bool := false
deriving DecidableEq, Repr

/-- JavaScript truthiness of a possibly-undefined string: undefined and the
empty string are falsy, every other string is truthy. -/
def jsTruthyStr : Option String → Bool
  | some s => !(s == "")
  | none => false

/-- The JavaScript expression x short-circuit-or d for a possibly-undefined
string x and a string default d. -/
def jsOrStr (x : Option String) (d : String) : String :=
  match x with
  | some s => if s = "" then d else s
  | none => d

/-- Remote-name resolution of the single-remote push branch:
options.remote, else config.default_remote, else the literal origin,
each position skipped when falsy. -/
def resolveRemoteName (opts : PushOptions) (cfg : RepomirrorConfig) : String :=
  jsOrStr opts.remote (jsOrStr cfg.default_remote "origin")

/-- Branch resolution of the single-remote push branch: options.branch,
else the configured branch of the resolved remote. -/
def resolveBranch (opts : PushOptions) (r : RemoteConfig) : String :=
  jsOrStr opts.branch r.branch

/-- Observable events of one push invocation.  gitPush records an actual
invocation of the underlying VCS push (the execa git push call); the
report constructors record the per-destination console reports. -/
inductive PushEvent where
  | gitPush (url branch : String)
  | reportPushing (name branch : String)
  | reportSuccess (name : String)
  | reportFailure (name : String)
  | reportFatalFailure
  | reportDryRun (url branch : String)
deriving DecidableEq, Repr

/-- Body of the for-loop of the all-remotes push mode: report the
destination, invoke git push unless dry-run, and report success, or catch
the error and report failure for this remote only.  The oracle env url
branch is true when the underlying git push to that url and branch would
throw. -/
def pushRemoteStep (dryRun : Bool) (env : String → String → Bool)
    (r : RemoteConfig) : List PushEvent :=
  PushEvent.reportPushing r.name r.branch ::
    (if dryRun then [PushEvent.reportSuccess r.name]
     else if env r.url r.branch then
       [PushEvent.gitPush r.url r.branch, PushEvent.reportFailure r.name]
     else
       [PushEvent.gitPush r.url r.branch, PushEvent.reportSuccess r.name])

/-- The all-remotes loop over the configured remotes in registry order. -/
def pushAllLoop (dryRun : Bool) (env : String → String → Bool) :
    List RemoteConfig → List PushEvent
  | [] => []
  | r :: rest => pushRemoteStep dryRun env r ++ pushAllLoop dryRun env rest

/-- The push command.  Input config is the result of loadConfig (none for
absent).  Output is the event trace together with the exit code: some 1
models process.exit(1), none models normal completion (exit status zero). -/
def pushModel (config : Option RepomirrorConfig) (opts : PushOptions)
    (env : String → String → Bool) : List PushEvent × Option Nat :=
  match config with
  | none => ([], some 1)
  | some cfg =>
    match cfg.remotes with
    | none => ([], some 1)
    | some rs =>
      if rs.isEmpty then ([], some 1)
      else if opts.all then
        (pushAllLoop opts.dryRun env rs, none)
      else
        let remoteName := resolveRemoteName opts cfg
        match rs.find? (fun r => r.name == remoteName) with
        | none => ([], some 1)
        | some remote =>
          let branch := resolveBranch opts remote
          if opts.dryRun then
            ([PushEvent.reportPushing remoteName branch,
              PushEvent.reportDryRun remote.url branch], none)
          else if env remote.url branch then
            ([PushEvent.reportPushing remoteName branch,
              PushEvent.gitPush remote.url branch,
              PushEvent.reportFatalFailure], some 1)
          else
            ([PushEvent.reportPushing remoteName branch,
              PushEvent.gitPush remote.url branch,
              PushEvent.reportSuccess remoteName], none)

/-- Urls and branches of the actual VCS push invocations in a trace. -/
def gitPushes (tr : List PushEvent) : List (String × String) :=
  tr.filterMap fun e =>
    match e with
    | PushEvent.gitPush u b => some (u, b)
    | _ => none

/-- Remote names whose push was reported failed (per-remote report of the
all-remotes mode). -/
def failureReports (tr : List PushEvent) : List String :=
  tr.filterMap fun e =>
    match e with
    | PushEvent.reportFailure n => some n
    | _ => none

/-- Remote names whose push was reported successful. -/
def successReports (tr : List PushEvent) : List String :=
  tr.filterMap fun e =>
    match e with
    | PushEvent.reportSuccess n => some n
    | _ => none

/-- Destination names and branches announced before each push attempt. -/
def pushingReports (tr : List PushEvent) : List (String × String) :=
  tr.filterMap fun e =>
    match e with
    | PushEvent.reportPushing n b => some (n, b)
    | _ => none

theorem gitPushes_append (a b : List PushEvent) :
    gitPushes (a ++ b) = gitPushes a ++ gitPushes b := by
  simp [gitPushes, List.filterMap_append]

theorem failureReports_append (a b : List PushEvent) :
    failureReports (a ++ b) = failureReports a ++ failureReports b := by
  simp [failureReports, List.filterMap_append]

theorem successReports_append (a b : List PushEvent) :
    successReports (a ++ b) = successReports a ++ successReports b := by
  simp [successReports, List.filterMap_append]

theorem pushingReports_append (a b : List PushEvent) :
    pushingReports (a ++ b) = pushingReports a ++ pushingReports b := by
  simp [pushingReports, List.filterMap_append]

theorem pushAllLoop_gitPushes (env : String → String → Bool)
    (rs : List RemoteConfig) :
    gitPushes (pushAllLoop false env rs) = rs.map (fun r => (r.url, r.branch)) := by
  induction rs with
  | nil => rfl
  | cons r rest ih =>
      simp only [pushAllLoop]
      rw [gitPushes_append, ih]
      by_cases h : env r.url r.branch <;>
        simp [pushRemoteStep, gitPushes, h]

theorem pushAllLoop_failureReports (env : String → String → Bool)
    (rs : List RemoteConfig) :
    failureReports (pushAllLoop false env rs)
      = (rs.filter (fun r => env r.url r.branch)).map (fun r => r.name) := by
  induction rs with
  | nil => rfl
  | cons r rest ih =>
      simp only [pushAllLoop]
      rw [failureReports_append, ih]
      by_cases h : env r.url r.branch <;>
        simp [pushRemoteStep, failureReports, h]

theorem pushAllLoop_successReports (env : String → String → Bool)
    (rs : List RemoteConfig) :
    successReports (pushAllLoop false env rs)
      = (rs.filter (fun r => !env r.url r.branch)).map (fun r => r.name) := by
  induction rs with
  | nil => rfl
  | cons r rest ih =>
      simp only [pushAllLoop]
      rw [successReports_append, ih]
      by_cases h : env r.url r.branch <;>
        simp [pushRemoteStep, successReports, h]

/-- Claim C1: in all-remotes mode a live push attempts the VCS push
against every configured remote in registry order, reports failure
exactly for the remotes whose push fails and success exactly for the
others, and the command completes with a zero exit status despite
partial failure. -/
theorem push_all_remotes_isolates_failures (cfg : RepomirrorConfig)
    (rs : List RemoteConfig) (opts : PushOptions) (env : String → String → Bool)
    (hrs : cfg.remotes = some rs) (hne : rs.isEmpty = false)
    (hall : opts.all = true) (hdry : opts.dryRun = false) :
    (pushModel (some cfg) opts env).2 = none
    ∧ gitPushes (pushModel (some cfg) opts env).1
        = rs.map (fun r => (r.url, r.branch))
    ∧ failureReports (pushModel (some cfg) opts env).1
        = (rs.filter (fun r => env r.url r.branch)).map (fun r => r.name)
    ∧ successReports (pushModel (some cfg) opts env).1
        = (rs.filter (fun r => !env r.url r.branch)).map (fun r => r.name) := by
  simp only [pushModel, hrs, hne, hall, hdry]
  exact ⟨rfl, pushAllLoop_gitPushes env rs, pushAllLoop_failureReports env rs,
    pushAllLoop_successReports env rs⟩

/-- A concrete two-remote configuration used to instantiate the push
claims: two registered remotes, the second with a non-default branch. -/
def cfgTwoRemotes : RepomirrorConfig :=
  { source_repo := "./"
    target_repo := "../out"
    transformation_instructions := "translate this python repo to typescript"
    config_version := "0.1.0"
    remotes := some [⟨"origin", "https://x/repo.git", "main"⟩,
                     ⟨"staging", "https://x/repo2.git", "dev"⟩] }

/-- Failure oracle making exactly the staging url unreachable. -/
def envStagingFails : String → String → Bool :=
  fun u _ => u == "https://x/repo2.git"

theorem push_all_remotes_isolates_failures_witness :
    (pushModel (some cfgTwoRemotes) { all := true } envStagingFails).2 = none
    ∧ gitPushes (pushModel (some cfgTwoRemotes) { all := true } envStagingFails).1
        = [("https://x/repo.git", "main"), ("https://x/repo2.git", "dev")]
    ∧ failureReports
        (pushModel (some cfgTwoRemotes) { all := true } envStagingFails).1
        = ["staging"]
    ∧ successReports
        (pushModel (some cfgTwoRemotes) { all := true } envStagingFails).1
        = ["origin"] := by
  have h := push_all_remotes_isolates_failures cfgTwoRemotes
    [⟨"origin", "https://x/repo.git", "main"⟩,
     ⟨"staging", "https://x/repo2.git", "dev"⟩]
    { all := true } envStagingFails rfl (by decide) rfl rfl
  exact ⟨h.1, h.2.1.trans (by decide), h.2.2.1.trans (by decide),
    h.2.2.2.trans (by decide)⟩

theorem pushAllLoop_dry_gitPushes (env : String → String → Bool)
    (rs : List RemoteConfig) :
    gitPushes (pushAllLoop true env rs) = [] := by
  induction rs with
  | nil => rfl
  | cons r rest ih =>
      simp only [pushAllLoop]
      rw [gitPushes_append, ih]
      simp [pushRemoteStep, gitPushes]

theorem pushAllLoop_pushingReports (dryRun : Bool) (env : String → String → Bool)
    (rs : List RemoteConfig) :
    pushingReports (pushAllLoop dryRun env rs)
      = rs.map (fun r => (r.name, r.branch)) := by
  induction rs with
  | nil => rfl
  | cons r rest ih =>
      simp only [pushAllLoop]
      rw [pushingReports_append, ih]
      cases dryRun <;> by_cases h : env r.url r.branch <;>
        simp [pushRemoteStep, pushingReports, h]

theorem pushAllLoop_dry_success_mem (env : String → String → Bool)
    (rs : List RemoteConfig) :
    ∀ r ∈ rs, PushEvent.reportSuccess r.name ∈ pushAllLoop true env rs := by
  induction rs with
  | nil => intro r hr; cases hr
  | cons a rest ih =>
      intro r hr
      rcases List.mem_cons.mp hr with rfl | hr
      · simp [pushAllLoop, pushRemoteStep]
      · exact List.mem_append.mpr (Or.inr (ih r hr))

/-- Claim C2: with the dry-run flag enabled push performs zero underlying
VCS push invocations in both single-remote and all-remotes mode, announces
exactly the destination remotes and branches a live push with the same
options would target, and in all-remotes mode still reports success per
remote. -/
theorem push_dry_run_no_vcs_push (cfg : RepomirrorConfig)
    (rs : List RemoteConfig) (rOpt bOpt : Option String) (allFlag : Bool)
    (env : String → String → Bool)
    (hrs : cfg.remotes = some rs) (hne : rs.isEmpty = false) :
    gitPushes (pushModel (some cfg) ⟨rOpt, bOpt, allFlag, true⟩ env).1 = []
    ∧ pushingReports (pushModel (some cfg) ⟨rOpt, bOpt, allFlag, true⟩ env).1
        = pushingReports (pushModel (some cfg) ⟨rOpt, bOpt, allFlag, false⟩ env).1
    ∧ (allFlag = true → ∀ r ∈ rs, PushEvent.reportSuccess r.name
        ∈ (pushModel (some cfg) ⟨rOpt, bOpt, allFlag, true⟩ env).1) := by
  cases allFlag with
  | true =>
      simp only [pushModel, hrs, hne]
      refine ⟨?_, ?_, ?_⟩
      · simpa using pushAllLoop_dry_gitPushes env rs
      · simp [pushAllLoop_pushingReports]
      · intro _ r hr
        simpa using pushAllLoop_dry_success_mem env rs r hr
  | false =>
      simp only [pushModel, hrs, hne, resolveRemoteName, resolveBranch]
      cases hfind : rs.find?
          (fun r => r.name == jsOrStr rOpt (jsOrStr cfg.default_remote "origin")) with
      | none =>
          simp [hfind, pushingReports, gitPushes]
      | some remote =>
          by_cases he : env remote.url (jsOrStr bOpt remote.branch) <;>
            simp [hfind, he, pushingReports, gitPushes]

theorem push_dry_run_no_vcs_push_witness :
    gitPushes (pushModel (some cfgTwoRemotes)
        { all := true, dryRun := true } envStagingFails).1 = []
    ∧ pushingReports (pushModel (some cfgTwoRemotes)
        { all := true, dryRun := true } envStagingFails).1
        = pushingReports (pushModel (some cfgTwoRemotes)
            { all := true, dryRun := false } envStagingFails).1
    ∧ PushEvent.reportSuccess "origin"
        ∈ (pushModel (some cfgTwoRemotes)
            { all := true, dryRun := true } envStagingFails).1
    ∧ PushEvent.reportSuccess "staging"
        ∈ (pushModel (some cfgTwoRemotes)
            { all := true, dryRun := true } envStagingFails).1 := by
  have h := push_dry_run_no_vcs_push cfgTwoRemotes
    [⟨"origin", "https://x/repo.git", "main"⟩,
     ⟨"staging", "https://x/repo2.git", "dev"⟩]
    none none true envStagingFails rfl (by decide)
  exact ⟨h.1, h.2.1,
    h.2.2 rfl ⟨"origin", "https://x/repo.git", "main"⟩ (by decide),
    h.2.2 rfl ⟨"staging", "https://x/repo2.git", "dev"⟩ (by decide)⟩

/-- Claim C3: in single-remote mode the target remote name resolves to the
explicit option when given, else the configured default remote when set,
else the literal origin; a resolved name absent from the configured
remotes makes the command exit with status 1; the branch resolves to the
explicit branch option when given, else the configured branch of the
resolved remote, and the announced destination uses exactly these
resolved values. -/
theorem push_single_remote_resolution (cfg : RepomirrorConfig)
    (rs : List RemoteConfig) (opts : PushOptions) (env : String → String → Bool)
    (hrs : cfg.remotes = some rs) (hne : rs.isEmpty = false)
    (hall : opts.all = false) :
    ((∀ s, opts.remote = some s → s ≠ "" → resolveRemoteName opts cfg = s)
     ∧ (jsTruthyStr opts.remote = false →
          ∀ d, cfg.default_remote = some d → d ≠ "" →
            resolveRemoteName opts cfg = d)
     ∧ (jsTruthyStr opts.remote = false → jsTruthyStr cfg.default_remote = false →
          resolveRemoteName opts cfg = "origin"))
    ∧ (rs.find? (fun r => r.name == resolveRemoteName opts cfg) = none →
        pushModel (some cfg) opts env = ([], some 1))
    ∧ (∀ r, rs.find? (fun r => r.name == resolveRemoteName opts cfg) = some r →
        ((pushModel (some cfg) opts env).1.head?
            = some (PushEvent.reportPushing (resolveRemoteName opts cfg)
                (resolveBranch opts r))
        ∧ (∀ b, opts.branch = some b → b ≠ "" → resolveBranch opts r = b)
        ∧ (jsTruthyStr opts.branch = false → resolveBranch opts r = r.branch))) := by
  refine ⟨⟨?_, ?_, ?_⟩, ?_, ?_⟩
  · intro s hs hns
    simp [resolveRemoteName, jsOrStr, hs, hns]
  · intro hfalse d hd hnd
    cases hrem : opts.remote with
    | none => simp [resolveRemoteName, jsOrStr, hrem, hd, hnd]
    | some s =>
        have : s = "" := by
          by_contra hne'
          simp [jsTruthyStr, hrem, hne'] at hfalse
        subst this
        simp [resolveRemoteName, jsOrStr, hrem, hd, hnd]
  · intro hfalse hdfalse
    have hrem : opts.remote = none ∨ opts.remote = some "" := by
      cases hr : opts.remote with
      | none => exact Or.inl rfl
      | some s =>
          right
          have : s = "" := by
            by_contra hne'
            simp [jsTruthyStr, hr, hne'] at hfalse
          simp [this]
    have hdef : cfg.default_remote = none ∨ cfg.default_remote = some "" := by
      cases hd : cfg.default_remote with
      | none => exact Or.inl rfl
      | some d =>
          right
          have : d = "" := by
            by_contra hne'
            simp [jsTruthyStr, hd, hne'] at hdfalse
          simp [this]
    rcases hrem with h1 | h1 <;> rcases hdef with h2 | h2 <;>
      simp [resolveRemoteName, jsOrStr, h1, h2]
  · intro hfind
    simp [pushModel, hrs, hne, hall, hfind]
  · intro r hfind
    refine ⟨?_, ?_, ?_⟩
    · by_cases hd : opts.dryRun <;>
        by_cases he : env r.url (resolveBranch opts r) <;>
          simp [pushModel, hrs, hne, hall, hfind, hd, he]
    · intro b hb hnb
      simp [resolveBranch, jsOrStr, hb, hnb]
    · intro hfalse
      cases hb : opts.branch with
      | none => simp [resolveBranch, jsOrStr, hb]
      | some b =>
          have : b = "" := by
            by_contra hne'
            simp [jsTruthyStr, hb, hne'] at hfalse
          subst this
          simp [resolveBranch, jsOrStr, hb]

theorem push_single_remote_resolution_witness :
    resolveRemoteName {} cfgTwoRemotes = "origin"
    ∧ (pushModel (some cfgTwoRemotes) {} envStagingFails).1.head?
        = some (PushEvent.reportPushing "origin" "main") := by
  have h := push_single_remote_resolution cfgTwoRemotes
    [⟨"origin", "https://x/repo.git", "main"⟩,
     ⟨"staging", "https://x/repo2.git", "dev"⟩]
    {} envStagingFails rfl (by decide) rfl
  refine ⟨h.1.2.2 (by decide) (by decide), ?_⟩
  have h2 := (h.2.2 ⟨"origin", "https://x/repo.git", "main"⟩ (by decide)).1
  exact h2.trans (by decide)

/-- The add action of the remote command: findIndex by name, then either
replace the entry at the found index in place or append a new entry, as in
the source. -/
def upsertRemote (rs : List RemoteConfig) (e : RemoteConfig) : List RemoteConfig :=
  match rs.findIdx? (fun r => r.name == e.name) with
  | some i => rs.set i e
  | none => rs ++ [e]

/-- Outcome of one remote command invocation: the configuration afterwards,
whether saveConfig was called, and the exit code (some 1 models
process.exit(1), none normal completion). -/
structure RemoteCmdResult where
  config : Option RepomirrorConfig
  saved : Bool
  exitCode : Option Nat
deriving DecidableEq, Repr

/-- The remote command dispatcher over actions add, list and remove.  The
branch argument of add defaults to main exactly when the third positional
argument is absent; empty-string or missing name and url are the usage
error of the source. -/
def remoteCmd (config : Option RepomirrorConfig) (action : String)
    (args : List String) : RemoteCmdResult :=
  match config with
  | none => ⟨none, false, some 1⟩
  | some cfg =>
    if action == "add" then
      match args[0]?, args[1]? with
      | some name, some url =>
        if name == "" || url == "" then ⟨some cfg, false, some 1⟩
        else
          let branch := (args[2]?).getD "main"
          let rs := cfg.remotes.getD []
          ⟨some { cfg with remotes := some (upsertRemote rs ⟨name, url, branch⟩) },
            true, none⟩
      | _, _ => ⟨some cfg, false, some 1⟩
    else if action == "list" then
      ⟨some cfg, false, none⟩
    else if action == "remove" then
      match args[0]? with
      | some name =>
        if name == "" then ⟨some cfg, false, some 1⟩
        else
          match cfg.remotes with
          | none => ⟨some cfg, false, none⟩
          | some rs =>
            match rs.findIdx? (fun r => r.name == name) with
            | some i => ⟨some { cfg with remotes := some (rs.eraseIdx i) }, true, none⟩
            | none => ⟨some cfg, false, none⟩
      | none => ⟨some cfg, false, some 1⟩
    else ⟨some cfg, false, some 1⟩

theorem upsertRemote_cons (r : RemoteConfig) (rs : List RemoteConfig)
    (e : RemoteConfig) :
    upsertRemote (r :: rs) e
      = if r.name == e.name then e :: rs else r :: upsertRemote rs e := by
  by_cases h : r.name == e.name
  · simp [upsertRemote, List.findIdx?_cons, h]
  · simp only [upsertRemote, List.findIdx?_cons, h, if_false, Bool.false_eq_true]
    cases hfi : rs.findIdx? (fun x => x.name == e.name) with
    | none => simp [hfi, h]
    | some i => simp [hfi, h]

theorem upsertRemote_not_mem (rs : List RemoteConfig) (e : RemoteConfig)
    (h : e.name ∉ rs.map (fun r => r.name)) :
    upsertRemote rs e = rs ++ [e] := by
  induction rs with
  | nil => rfl
  | cons r rest ih =>
      rw [upsertRemote_cons]
      simp only [List.map_cons, List.mem_cons, not_or] at h
      have hr : (r.name == e.name) = false := by
        simp [Ne.symm h.1]
      simp [hr, ih h.2]

theorem upsertRemote_mem_names (rs : List RemoteConfig) (e : RemoteConfig)
    (h : e.name ∈ rs.map (fun r => r.name)) :
    (upsertRemote rs e).map (fun r => r.name) = rs.map (fun r => r.name) := by
  induction rs with
  | nil => cases h
  | cons r rest ih =>
      rw [upsertRemote_cons]
      by_cases hr : r.name == e.name
      · have : r.name = e.name := by simpa using hr
        simp [hr, this]
      · have hne : e.name ≠ r.name := by
          intro hh
          simp [hh] at hr
        have htail : e.name ∈ rest.map (fun r => r.name) := by
          simp only [List.map_cons, List.mem_cons] at h
          exact h.resolve_left hne
        simp [hr, ih htail]

theorem upsertRemote_nodup (rs : List RemoteConfig) (e : RemoteConfig)
    (h : (rs.map (fun r => r.name)).Nodup) :
    ((upsertRemote rs e).map (fun r => r.name)).Nodup := by
  by_cases hm : e.name ∈ rs.map (fun r => r.name)
  · rw [upsertRemote_mem_names rs e hm]
    exact h
  · rw [upsertRemote_not_mem rs e hm]
    simp [List.nodup_append, h, hm]

theorem upsertRemote_getElem_ne (rs : List RemoteConfig) (e : RemoteConfig)
    (j : Nat) (r₀ : RemoteConfig) (hj : rs[j]? = some r₀)
    (hne : r₀.name ≠ e.name) :
    (upsertRemote rs e)[j]? = some r₀ := by
  induction rs generalizing j with
  | nil => simp at hj
  | cons r rest ih =>
      rw [upsertRemote_cons]
      by_cases hr : r.name == e.name
      · cases j with
        | zero =>
            simp at hj
            subst hj
            exact absurd (by simpa using hr) hne
        | succ j =>
            simp at hj
            simp [hr, hj]
      · cases j with
        | zero =>
            simp at hj
            subst hj
            simp [hr]
        | succ j =>
            simp at hj
            simp [hr, ih j hj]

theorem upsertRemote_getElem_eq (rs : List RemoteConfig) (e : RemoteConfig)
    (j : Nat) (r₀ : RemoteConfig)
    (hnodup : (rs.map (fun r => r.name)).Nodup)
    (hj : rs[j]? = some r₀) (heq : r₀.name = e.name) :
    (upsertRemote rs e)[j]? = some e := by
  induction rs generalizing j with
  | nil => simp at hj
  | cons r rest ih =>
      rw [upsertRemote_cons]
      by_cases hr : r.name == e.name
      · cases j with
        | zero => simp [hr]
        | succ j =>
            simp at hj
            have hmem : r₀ ∈ rest := List.get?_mem (by
              rw [List.get?_eq_getElem?]
              exact hj)
            have hre : r.name = e.name := by simpa using hr
            simp [List.nodup_cons] at hnodup
            exact absurd (heq.trans hre.symm) (hnodup.1 r₀ hmem)
      · cases j with
        | zero =>
            simp at hj
            subst hj
            simp [heq] at hr
        | succ j =>
            simp at hj
            simp only [List.nodup_cons, List.map_cons] at hnodup
            simp [hr, ih j hnodup.2 hj]

/-- Claim C4: remote add upserts by name — an existing name is replaced in
place at its position with the sequence length and the order of names
unchanged and all other entries untouched, a fresh name is appended at the
end — the document is persisted afterwards, and name uniqueness of the
remotes sequence is preserved. -/
theorem remote_add_upsert_preserves_unique_names (cfg : RepomirrorConfig)
    (rs : List RemoteConfig) (name url branch : String)
    (hrs : cfg.remotes = some rs) (hname : name ≠ "") (hurl : url ≠ "")
    (hnodup : (rs.map (fun r => r.name)).Nodup) :
    (remoteCmd (some cfg) "add" [name, url, branch]).saved = true
    ∧ (remoteCmd (some cfg) "add" [name, url, branch]).exitCode = none
    ∧ (remoteCmd (some cfg) "add" [name, url, branch]).config
        = some { cfg with remotes := some (upsertRemote rs ⟨name, url, branch⟩) }
    ∧ ((upsertRemote rs ⟨name, url, branch⟩).map (fun r => r.name)).Nodup
    ∧ (name ∈ rs.map (fun r => r.name) →
        (upsertRemote rs ⟨name, url, branch⟩).map (fun r => r.name)
            = rs.map (fun r => r.name)
        ∧ (upsertRemote rs ⟨name, url, branch⟩).length = rs.length
        ∧ (∀ (j : Nat) (r₀ : RemoteConfig), rs[j]? = some r₀ → r₀.name ≠ name →
            (upsertRemote rs ⟨name, url, branch⟩)[j]? = some r₀)
        ∧ (∀ (j : Nat) (r₀ : RemoteConfig), rs[j]? = some r₀ → r₀.name = name →
            (upsertRemote rs ⟨name, url, branch⟩)[j]? = some ⟨name, url, branch⟩))
    ∧ (name ∉ rs.map (fun r => r.name) →
        upsertRemote rs ⟨name, url, branch⟩ = rs ++ [⟨name, url, branch⟩]) := by
  refine ⟨?_, ?_, ?_, upsertRemote_nodup rs _ hnodup, ?_, ?_⟩
  · simp [remoteCmd, hname, hurl]
  · simp [remoteCmd, hname, hurl]
  · simp [remoteCmd, hrs, hname, hurl]
  · intro hmem
    refine ⟨upsertRemote_mem_names rs _ hmem, ?_, ?_, ?_⟩
    · have := congrArg List.length (upsertRemote_mem_names rs ⟨name, url, branch⟩ hmem)
      simpa using this
    · intro j r₀ hj hne
      exact upsertRemote_getElem_ne rs _ j r₀ hj hne
    · intro j r₀ hj hne
      exact upsertRemote_getElem_eq rs _ j r₀ hnodup hj hne
  · intro hmem
    exact upsertRemote_not_mem rs _ hmem

theorem remote_add_upsert_preserves_unique_names_witness :
    (remoteCmd (some cfgTwoRemotes) "add" ["staging", "https://y/r.git", "prod"]).saved
        = true
    ∧ (remoteCmd (some cfgTwoRemotes) "add" ["staging", "https://y/r.git", "prod"]).config
        = some { cfgTwoRemotes with
            remotes := some [⟨"origin", "https://x/repo.git", "main"⟩,
                             ⟨"staging", "https://y/r.git", "prod"⟩] } := by
  have h := remote_add_upsert_preserves_unique_names cfgTwoRemotes
    [⟨"origin", "https://x/repo.git", "main"⟩,
     ⟨"staging", "https://x/repo2.git", "dev"⟩]
    "staging" "https://y/r.git" "prod" rfl (by decide) (by decide) (by decide)
  exact ⟨h.1, h.2.2.1.trans (by decide)⟩

/-- Claim C10: remote add without a branch argument, applied to a name
already present in the registry, replaces that entry with the default
branch main even when the existing entry had a different configured
branch. -/
theorem remote_add_existing_resets_branch_to_main (cfg : RepomirrorConfig)
    (rs : List RemoteConfig) (name url : String) (j : Nat) (r₀ : RemoteConfig)
    (hrs : cfg.remotes = some rs) (hname : name ≠ "") (hurl : url ≠ "")
    (hnodup : (rs.map (fun r => r.name)).Nodup)
    (hj : rs[j]? = some r₀) (hjname : r₀.name = name)
    (_hbr : r₀.branch ≠ "main") :
    (remoteCmd (some cfg) "add" [name, url]).config
        = some { cfg with remotes := some (upsertRemote rs ⟨name, url, "main"⟩) }
    ∧ (upsertRemote rs ⟨name, url, "main"⟩)[j]? = some ⟨name, url, "main"⟩ := by
  constructor
  · simp [remoteCmd, hrs, hname, hurl]
  · exact upsertRemote_getElem_eq rs ⟨name, url, "main"⟩ j r₀ hnodup hj hjname

theorem remote_add_existing_resets_branch_to_main_witness :
    (remoteCmd (some cfgTwoRemotes) "add" ["staging", "https://y/r.git"]).config
        = some { cfgTwoRemotes with
            remotes := some [⟨"origin", "https://x/repo.git", "main"⟩,
                             ⟨"staging", "https://y/r.git", "main"⟩] } := by
  have h := remote_add_existing_resets_branch_to_main cfgTwoRemotes
    [⟨"origin", "https://x/repo.git", "main"⟩,
     ⟨"staging", "https://x/repo2.git", "dev"⟩]
    "staging" "https://y/r.git" 1 ⟨"staging", "https://x/repo2.git", "dev"⟩
    rfl (by decide) (by decide) (by decide) (by decide) rfl (by decide)
  exact h.1.trans (by decide)

/-- Yaml scalar or remote-sequence value as it appears in the persisted
configuration document: every field of the document is a string, a
boolean, a number, or the remotes sequence of string maps. -/
inductive Yaml where
  | str (s : String)
  | bool (b : Bool)
  | num (n : Nat)
  | seq (items : List (List (String × String)))
deriving DecidableEq, Repr

/-- Yaml map emitted for one remote entry. -/
def yamlOfRemote (r : RemoteConfig) : List (String × String) :=
  [("name", r.name), ("url", r.url), ("branch", r.branch)]

/-- Typed read-back of one remote entry from its yaml map. -/
def remoteOfYaml (m : List (String × String)) : Option RemoteConfig :=
  match List.lookup "name" m, List.lookup "url" m, List.lookup "branch" m with
  | some n, some u, some b => some ⟨n, u, b⟩
  | _, _, _ => none

/-- Typed read-back of the remotes sequence. -/
def remotesOfYaml : List (List (String × String)) → Option (List RemoteConfig)
  | [] => some []
  | m :: rest =>
      match remoteOfYaml m, remotesOfYaml rest with
      | some r, some rs => some (r :: rs)
      | _, _ => none

/-- Serialization of the configuration document (the yaml.stringify call of
saveConfig): required fields always emitted, each optional field emitted
exactly when set, undefined optional fields omitted entirely. -/
def yamlStringifyConfig (c : RepomirrorConfig) : List (String × Yaml) :=
  [("source_repo", Yaml.str c.source_repo),
   ("target_repo", Yaml.str c.target_repo),
   ("transformation_instructions", Yaml.str c.transformation_instructions),
   ("config_version", Yaml.str c.config_version)]
  ++ (match c.default_remote with
      | some s => [("default_remote", Yaml.str s)]
      | none => [])
  ++ (match c.auto_sync with
      | some b => [("auto_sync", Yaml.bool b)]
      | none => [])
  ++ (match c.remotes with
      | some rs => [("remotes", Yaml.seq (rs.map yamlOfRemote))]
      | none => [])
  ++ (match c.target_remote with
      | some s => [("target_remote", Yaml.str s)]
      | none => [])
  ++ (match c.times_to_loop with
      | some n => [("times_to_loop", Yaml.num n)]
      | none => [])

/-- String field lookup in a parsed document. -/
def lookupStr (doc : List (String × Yaml)) (key : String) : Option String :=
  match List.lookup key doc with
  | some (Yaml.str s) => some s
  | _ => none

/-- Boolean field lookup in a parsed document. -/
def lookupBool (doc : List (String × Yaml)) (key : String) : Option Bool :=
  match List.lookup key doc with
  | some (Yaml.bool b) => some b
  | _ => none

/-- Numeric field lookup in a parsed document. -/
def lookupNum (doc : List (String × Yaml)) (key : String) : Option Nat :=
  match List.lookup key doc with
  | some (Yaml.num n) => some n
  | _ => none

/-- Remotes sequence lookup in a parsed document. -/
def lookupRemotes (doc : List (String × Yaml)) : Option (List RemoteConfig) :=
  match List.lookup "remotes" doc with
  | some (Yaml.seq items) => remotesOfYaml items
  | _ => none

/-- Typed read-back of the whole configuration document, modelling the
yaml.parse call of loadConfig followed by its use at the RepomirrorConfig
type: absent required fields make the document unusable, absent optional
fields simply stay unset. -/
def yamlParseConfig (doc : List (String × Yaml)) : Option RepomirrorConfig :=
  match lookupStr doc "source_repo", lookupStr doc "target_repo",
      lookupStr doc "transformation_instructions",
      lookupStr doc "config_version" with
  | some s, some t, some ti, some cv =>
      some { source_repo := s, target_repo := t,
             transformation_instructions := ti, config_version := cv,
             default_remote := lookupStr doc "default_remote",
             auto_sync := lookupBool doc "auto_sync",
             remotes := lookupRemotes doc,
             target_remote := lookupStr doc "target_remote",
             times_to_loop := lookupNum doc "times_to_loop" }
  | _, _, _, _ => none

/-- File store keyed by absolute path; file contents are kept at the parsed
document level. -/
def FileStore : Type := String → Option (List (String × Yaml))

/-- Path join, modelling join(baseDir, filename). -/
def joinPath (a b : String) : String := a ++ "/" ++ b

/-- Model of resolve(cwd, p) for the relative paths this program passes. -/
def resolvePath (cwd p : String) : String := cwd ++ "/" ++ p

/-- Base-directory resolution shared by loadConfig and saveConfig: a truthy
sourceRepo different from the literal ./ is resolved against the working
directory, anything else means the working directory itself. -/
def configBaseDir (cwd : String) (sourceRepo : Option String) : String :=
  match sourceRepo with
  | some s => if s ≠ "" ∧ s ≠ "./" then resolvePath cwd s else cwd
  | none => cwd

/-- Full path of the configuration document below a base directory. -/
def configFilePath (cwd : String) (sourceRepo : Option String) : String :=
  joinPath (configBaseDir cwd sourceRepo) "repomirror.yaml"

/-- File-system operations performed by saveConfig, in order. -/
inductive FsOp where
  | mkdirRecursive (path : String)
  | writeFile (path : String) (content : List (String × Yaml))
  | writeTempFile (path : String) (content : List (String × Yaml))
  | rename (src dst : String)
deriving DecidableEq, Repr

/-- Whether an operation is a rename (the commit step of a
write-to-temporary-then-rename strategy). -/
def FsOp.isRename : FsOp → Bool
  | FsOp.rename _ _ => true
  | _ => false

/-- Whether an operation is a direct in-place write to the given path. -/
def FsOp.isDirectWriteTo (p : String) : FsOp → Bool
  | FsOp.writeFile q _ => q == p
  | _ => false

/-- Whether a trace commits its data through a temporary file followed by a
rename, the atomic-write strategy named by the specification. -/
def usesWriteThenRename (ops : List FsOp) : Bool :=
  ops.any FsOp.isRename

/-- The operations saveConfig performs: create the base directory
recursively, then write the serialized full document straight to the
configuration path with fs.writeFile. -/
def saveConfigOps (c : RepomirrorConfig) (cwd : String)
    (sourceRepo : Option String) : List FsOp :=
  [FsOp.mkdirRecursive (configBaseDir cwd sourceRepo),
   FsOp.writeFile (configFilePath cwd sourceRepo) (yamlStringifyConfig c)]

/-- Effect of one file-system operation on the file store. -/
def applyFsOp (st : FileStore) : FsOp → FileStore
  | FsOp.mkdirRecursive _ => st
  | FsOp.writeFile p content => fun q => if q = p then some content else st q
  | FsOp.writeTempFile p content => fun q => if q = p then some content else st q
  | FsOp.rename src dst => fun q =>
      if q = dst then st src else if q = src then none else st q

/-- Sequential effect of a trace of file-system operations. -/
def runFsOps (st : FileStore) : List FsOp → FileStore
  | [] => st
  | op :: rest => runFsOps (applyFsOp st op) rest

/-- State-level meaning of saveConfig. -/
def saveConfigModel (st : FileStore) (c : RepomirrorConfig) (cwd : String)
    (sourceRepo : Option String) : FileStore :=
  runFsOps st (saveConfigOps c cwd sourceRepo)

/-- loadConfig: read the document at the configuration path below the
resolved base directory and parse it; a missing file or an unusable
document is the absent result. -/
def loadConfigModel (st : FileStore) (cwd : String)
    (sourceRepo : Option String) : Option RepomirrorConfig :=
  match st (configFilePath cwd sourceRepo) with
  | some doc => yamlParseConfig doc
  | none => none

theorem remotesOfYaml_roundtrip (rs : List RemoteConfig) :
    remotesOfYaml (rs.map yamlOfRemote) = some rs := by
  induction rs with
  | nil => rfl
  | cons r rest ih =>
      simp [remotesOfYaml, remoteOfYaml, yamlOfRemote, List.lookup, ih]

theorem yamlParse_stringify_roundtrip (c : RepomirrorConfig) :
    yamlParseConfig (yamlStringifyConfig c) = some c := by
  rcases c with ⟨s, t, ti, cv, dr, au, rm, tg, tl⟩
  cases dr <;> cases au <;> cases rm <;> cases tg <;> cases tl <;>
    simp [yamlParseConfig, yamlStringifyConfig, lookupStr, lookupBool, lookupNum,
      lookupRemotes, List.lookup, remotesOfYaml_roundtrip]

/-- Claim C5: saving a configuration document and loading it back from the
same base directory yields exactly the original document, and each
optional field is present in the serialized document exactly when it was
set in the original. -/
theorem config_save_load_roundtrip (st : FileStore) (c : RepomirrorConfig)
    (cwd : String) (sourceRepo : Option String) :
    loadConfigModel (saveConfigModel st c cwd sourceRepo) cwd sourceRepo = some c
    ∧ (List.lookup "default_remote" (yamlStringifyConfig c)).isSome
        = c.default_remote.isSome
    ∧ (List.lookup "auto_sync" (yamlStringifyConfig c)).isSome
        = c.auto_sync.isSome
    ∧ (List.lookup "remotes" (yamlStringifyConfig c)).isSome
        = c.remotes.isSome
    ∧ (List.lookup "target_remote" (yamlStringifyConfig c)).isSome
        = c.target_remote.isSome
    ∧ (List.lookup "times_to_loop" (yamlStringifyConfig c)).isSome
        = c.times_to_loop.isSome := by
  constructor
  · simp [loadConfigModel, saveConfigModel, saveConfigOps, runFsOps, applyFsOp,
      yamlParse_stringify_roundtrip]
  · rcases c with ⟨s, t, ti, cv, dr, au, rm, tg, tl⟩
    cases dr <;> cases au <;> cases rm <;> cases tg <;> cases tl <;>
      simp [yamlStringifyConfig, List.lookup]

/-- Claim C6 counterexample: at a concrete configuration and base
directory, the operation trace of saveConfig contains no rename at all
(hence no write-to-temporary-then-rename commit), and instead performs a
direct in-place write to the configuration path, contradicting the
claimed atomic write strategy. -/
theorem save_config_no_rename_counterexample :
    usesWriteThenRename (saveConfigOps cfgTwoRemotes "/work" none) = false
    ∧ (saveConfigOps cfgTwoRemotes "/work" none).any
        (FsOp.isDirectWriteTo (configFilePath "/work" none)) = true := by
  decide

/-- Claim C6 (amended): saveConfig creates the base directory if missing
and then writes the serialized full document with a single direct
in-place write to the configuration path; it uses no temporary file and
no rename, so no atomicity with respect to concurrent readers is
provided, and its state-level effect is exactly an update of the
configuration path to the full serialized document. -/
theorem save_config_direct_write (c : RepomirrorConfig) (cwd : String)
    (sourceRepo : Option String) (st : FileStore) :
    saveConfigOps c cwd sourceRepo
      = [FsOp.mkdirRecursive (configBaseDir cwd sourceRepo),
         FsOp.writeFile (configFilePath cwd sourceRepo) (yamlStringifyConfig c)]
    ∧ usesWriteThenRename (saveConfigOps c cwd sourceRepo) = false
    ∧ saveConfigModel st c cwd sourceRepo (configFilePath cwd sourceRepo)
        = some (yamlStringifyConfig c) := by
  refine ⟨rfl, rfl, ?_⟩
  simp [saveConfigModel, saveConfigOps, runFsOps, applyFsOp]

/-- Options accepted by the pull command, from PullOptions in types.ts. -/
structure PullOptions where
  sourceOnly : Bool := false
  syncAfter : Bool := false
  check : Bool := false
deriving DecidableEq, Repr

/-- External outcomes of the git commands pull may run. -/
structure PullEnv where
  fetchFails : Bool
  statusFails : Bool
  pullFails : Bool
deriving DecidableEq, Repr

/-- Observable events of one pull invocation.  gitFetch and gitStatus are
the read-only commands of check mode, gitPull is the working-tree
mutation of apply mode, and the two sync events record chaining into the
continuous or the single-shot sync executor. -/
inductive PullEvent where
  | gitFetch (cwd : String)
  | gitStatus (cwd : String)
  | gitPull (cwd : String)
  | syncContinuous
  | syncOnce
deriving DecidableEq, Repr

/-- The pull command: check mode fetches and reports status then returns;
apply mode runs git pull and, on success only, chains into continuous
sync when the sync-after flag is set, else into single-shot sync when the
document auto_sync flag is true, unless the source-only flag suppresses
chaining; a failing git command exits with status 1. -/
def pullModel (config : Option RepomirrorConfig) (opts : PullOptions)
    (env : PullEnv) : List PullEvent × Option Nat :=
  match config with
  | none => ([], some 1)
  | some cfg =>
    let src := cfg.source_repo
    if opts.check then
      if env.fetchFails then ([PullEvent.gitFetch src], some 1)
      else if env.statusFails then
        ([PullEvent.gitFetch src, PullEvent.gitStatus src], some 1)
      else ([PullEvent.gitFetch src, PullEvent.gitStatus src], none)
    else
      if env.pullFails then ([PullEvent.gitPull src], some 1)
      else
        let chain :=
          if !opts.sourceOnly then
            if opts.syncAfter then [PullEvent.syncContinuous]
            else if cfg.auto_sync = some true then [PullEvent.syncOnce]
            else []
          else []
        (PullEvent.gitPull src :: chain, none)

/-- Claim C7: pull in check mode only fetches and reports status; its
trace never contains the working-tree mutation and never contains a sync
event, single-shot or continuous, whatever the auto_sync flag or the
sync-after option say. -/
theorem pull_check_mode_read_only (cfg : RepomirrorConfig)
    (opts : PullOptions) (env : PullEnv) (hcheck : opts.check = true) :
    PullEvent.gitPull cfg.source_repo ∉ (pullModel (some cfg) opts env).1
    ∧ PullEvent.syncOnce ∉ (pullModel (some cfg) opts env).1
    ∧ PullEvent.syncContinuous ∉ (pullModel (some cfg) opts env).1
    ∧ ∀ e ∈ (pullModel (some cfg) opts env).1,
        e = PullEvent.gitFetch cfg.source_repo
        ∨ e = PullEvent.gitStatus cfg.source_repo := by
  by_cases hf : env.fetchFails <;> by_cases hs : env.statusFails <;>
    simp [pullModel, hcheck, hf, hs]

theorem pull_check_mode_read_only_witness :
    PullEvent.syncOnce
      ∉ (pullModel (some { cfgTwoRemotes with auto_sync := some true })
          { check := true, syncAfter := true }
          ⟨false, false, false⟩).1 := by
  have h := pull_check_mode_read_only { cfgTwoRemotes with auto_sync := some true }
    { check := true, syncAfter := true } ⟨false, false, false⟩ rfl
  exact h.2.1

/-- Claim C8: pull in apply mode chains as follows — a failing pull exits
with status 1 before any chaining; on success the source-only flag
suppresses all chaining; otherwise the sync-after flag triggers
continuous sync, taking precedence over auto_sync, and failing that a
true auto_sync flag triggers single-shot sync, else nothing is chained. -/
theorem pull_apply_mode_chaining (cfg : RepomirrorConfig)
    (opts : PullOptions) (env : PullEnv) (hcheck : opts.check = false) :
    (env.pullFails = true →
      (pullModel (some cfg) opts env).2 = some 1
      ∧ PullEvent.syncOnce ∉ (pullModel (some cfg) opts env).1
      ∧ PullEvent.syncContinuous ∉ (pullModel (some cfg) opts env).1)
    ∧ (env.pullFails = false →
        (pullModel (some cfg) opts env).2 = none
        ∧ PullEvent.gitPull cfg.source_repo ∈ (pullModel (some cfg) opts env).1
        ∧ (opts.sourceOnly = true →
            PullEvent.syncOnce ∉ (pullModel (some cfg) opts env).1
            ∧ PullEvent.syncContinuous ∉ (pullModel (some cfg) opts env).1)
        ∧ (opts.sourceOnly = false →
            (opts.syncAfter = true →
              PullEvent.syncContinuous ∈ (pullModel (some cfg) opts env).1
              ∧ PullEvent.syncOnce ∉ (pullModel (some cfg) opts env).1)
            ∧ (opts.syncAfter = false →
                (cfg.auto_sync = some true →
                  PullEvent.syncOnce ∈ (pullModel (some cfg) opts env).1
                  ∧ PullEvent.syncContinuous ∉ (pullModel (some cfg) opts env).1)
                ∧ (cfg.auto_sync ≠ some true →
                    PullEvent.syncOnce ∉ (pullModel (some cfg) opts env).1
                    ∧ PullEvent.syncContinuous
                        ∉ (pullModel (some cfg) opts env).1)))) := by
  constructor
  · intro hp
    simp [pullModel, hcheck, hp]
  · intro hp
    refine ⟨by simp [pullModel, hcheck, hp], by simp [pullModel, hcheck, hp], ?_, ?_⟩
    · intro hso
      simp [pullModel, hcheck, hp, hso]
    · intro hso
      constructor
      · intro hsa
        simp [pullModel, hcheck, hp, hso, hsa]
      · intro hsa
        constructor
        · intro hauto
          simp [pullModel, hcheck, hp, hso, hsa, hauto]
        · intro hauto
          simp [pullModel, hcheck, hp, hso, hsa, hauto]

theorem pull_apply_mode_chaining_witness :
    PullEvent.syncContinuous
      ∈ (pullModel (some { cfgTwoRemotes with auto_sync := some true })
          { syncAfter := true } ⟨false, false, false⟩).1
    ∧ PullEvent.syncOnce
      ∉ (pullModel (some { cfgTwoRemotes with auto_sync := some true })
          { syncAfter := true } ⟨false, false, false⟩).1 := by
  have h := pull_apply_mode_chaining { cfgTwoRemotes with auto_sync := some true }
    { syncAfter := true } ⟨false, false, false⟩ rfl
  exact ((h.2 rfl).2.2.2 rfl).1 rfl

/-- How one sync subprocess terminated: normal completion, termination by
a signal of the given name, or a failing exit with a nonzero code. -/
inductive TermCause where
  | success
  | signaled (sig : String)
  | exitedNonZero (code : Nat)
deriving DecidableEq, Repr

/-- The signal the installed handlers forward to the subprocess: for both
an interrupt and a termination signal received by the parent, the child
is sent the interrupt signal. -/
def signalHandlerForwards (parentSig : String) : Option String :=
  if parentSig = "SIGINT" ∨ parentSig = "SIGTERM" then some "SIGINT" else none

/-- Exit status of the single-shot sync command as a function of how the
subprocess terminated, from the catch block: an error whose signal is the
interrupt signal exits with 0, any other error with 1, and normal
completion continues with status 0. -/
def syncExitCode : TermCause → Nat
  | TermCause.success => 0
  | TermCause.signaled sig => if sig = "SIGINT" then 0 else 1
  | TermCause.exitedNonZero _ => 1

/-- Exit status of the continuous sync command as a function of how the
subprocess terminated, from the identical catch block of syncForever. -/
def syncForeverExitCode : TermCause → Nat
  | TermCause.success => 0
  | TermCause.signaled sig => if sig = "SIGINT" then 0 else 1
  | TermCause.exitedNonZero _ => 1

/-- A termination that is abnormal and not caused by the interrupt
signal: a nonzero exit, or a signal other than the interrupt signal. -/
def abnormalOtherCause (c : TermCause) : Prop :=
  (∃ code, c = TermCause.exitedNonZero code)
  ∨ (∃ sig, c = TermCause.signaled sig ∧ sig ≠ "SIGINT")

/-- Claim C9: when a sync subprocess, single-shot or continuous, dies of
the signal the parent handlers forward, the parent exits with status
zero; when it terminates abnormally for any other cause, the parent exits
with a nonzero status. -/
theorem sync_signal_exit_codes :
    (∀ parentSig sig, signalHandlerForwards parentSig = some sig →
      syncExitCode (TermCause.signaled sig) = 0
      ∧ syncForeverExitCode (TermCause.signaled sig) = 0)
    ∧ (∀ c, abnormalOtherCause c →
        syncExitCode c = 1 ∧ syncForeverExitCode c = 1) := by
  constructor
  · intro parentSig sig hfwd
    have hsig : sig = "SIGINT" := by
      by_cases h : parentSig = "SIGINT" ∨ parentSig = "SIGTERM"
      · simp [signalHandlerForwards, h] at hfwd
        exact hfwd.symm
      · simp [signalHandlerForwards, h] at hfwd
    subst hsig
    exact ⟨by simp [syncExitCode], by simp [syncForeverExitCode]⟩
  · intro c hc
    rcases hc with ⟨code, rfl⟩ | ⟨sig, rfl, hsig⟩
    · exact ⟨rfl, rfl⟩
    · exact ⟨by simp [syncExitCode, hsig], by simp [syncForeverExitCode, hsig]⟩

theorem sync_signal_exit_codes_witness :
    syncExitCode (TermCause.signaled "SIGINT") = 0
    ∧ syncForeverExitCode (TermCause.signaled "SIGINT") = 0
    ∧ syncExitCode (TermCause.exitedNonZero 2) = 1
    ∧ syncForeverExitCode (TermCause.signaled "SIGKILL") = 1 := by
  have h1 := sync_signal_exit_codes.1 "SIGTERM" "SIGINT" (by simp [signalHandlerForwards])
  have h2 := sync_signal_exit_codes.2 (TermCause.exitedNonZero 2) (Or.inl ⟨2, rfl⟩)
  have h3 := sync_signal_exit_codes.2 (TermCause.signaled "SIGKILL")
    (Or.inr ⟨"SIGKILL", rfl, by decide⟩)
  exact ⟨h1.1, h1.2, h2.1, h3.2⟩
